import Mathlib

/-!
Shallow embedding of `pykokkos/interface/type_inference.py`: the argument
unpacker `handle_args` and the type-annotation inferencer `get_annotations`.
External collaborators (execution policies, views, the default execution
space) are not defined in the source fragment; they are modelled from the
specification as plain data carrying exactly the structure the source reads.
-/

/-- Modelled from the spec: a view exposes its shape (rank = length of the
shape) and the name of its element dtype (`value.shape`, `value.dtype.name`).
`views.py` is not part of the source fragment. -/
structure ViewVal where
  shape : List Nat
  dtype_name : String

/-- Modelled from the spec: the execution-policy hierarchy from
`execution_policy.py` (not part of the source fragment). `RangePolicy`
carries a space and begin/end bounds; `MDRangePolicy` carries begin/end
bound sequences (the source reads only `policy.begin`). -/
inductive Policy where
  | RangePolicy (space : String) (pbegin pend : Int)
  | TeamThreadRange
  | TeamPolicy
  | MDRangePolicy (pbegin pend : List Int)

/-- A workunit parameter as seen through `inspect.signature`: its name and
its optional type hint. `annot = none` models `param.annotation is
inspect._empty`. -/
structure Param where
  name : String
  annot : Option String

/-- A Python runtime value, restricted to the type universe the source
dispatches on: strings, ints, floats, views, policies, callables (a
callable is represented by its signature's parameter list) and a
catch-all for anything else, tagged with its runtime type name. -/
inductive PyVal where
  | vstr (s : String)
  | vint (n : Int)
  | vfloat (q : Rat)
  | vview (v : ViewVal)
  | vpolicy (p : Policy)
  | vworkunit (params : List Param)
  | vother (ty : String)

/-- Python `isinstance(x, str)`. -/
def PyVal.isinstance_str : PyVal → Bool
  | .vstr _ => true
  | _ => false

/-- Python `isinstance(x, ViewType)` (every modelled view is a `ViewType`). -/
def PyVal.isinstance_ViewType : PyVal → Bool
  | .vview _ => true
  | _ => false

/-- Python `isinstance(x, (int, float))`. -/
def PyVal.isinstance_numeric : PyVal → Bool
  | .vint _ => true
  | .vfloat _ => true
  | _ => false

/-- Python `isinstance(x, int)`. -/
def PyVal.isinstance_int : PyVal → Bool
  | .vint _ => true
  | _ => false

/-- Python `isinstance(x, RangePolicy)`. -/
def PyVal.isinstance_RangePolicy : PyVal → Bool
  | .vpolicy (.RangePolicy ..) => true
  | _ => false

/-- Python `isinstance(x, TeamThreadRange)`. -/
def PyVal.isinstance_TeamThreadRange : PyVal → Bool
  | .vpolicy .TeamThreadRange => true
  | _ => false

/-- Python `isinstance(x, TeamPolicy)`. -/
def PyVal.isinstance_TeamPolicy : PyVal → Bool
  | .vpolicy .TeamPolicy => true
  | _ => false

/-- Python `isinstance(x, MDRangePolicy)`. -/
def PyVal.isinstance_MDRangePolicy : PyVal → Bool
  | .vpolicy (.MDRangePolicy ..) => true
  | _ => false

/-- Modelled from the spec: `km.get_default_space()`, the default
execution space accessor from `kokkos_manager` (not part of the source
fragment), represented by an abstract space name. -/
def get_default_space : String := "DefaultExecutionSpace"

/-- The errors the source raises: `TypeError`, `ValueError`, a failed
`assert`, and `IndexError` for out-of-range list indexing. -/
inductive PyError where
  | typeError (msg : String)
  | valueError (msg : String)
  | assertionError (msg : String)
  | indexError (msg : String)

/-- Source `HandledArgs`: the record produced by `handle_args`. The source
annotates `policy : ExecutionPolicy` and `workunit : Callable` but never
checks those slots, so they hold arbitrary runtime values here. -/
structure HandledArgs where
  name : Option String
  policy : PyVal
  workunit : PyVal
  view : Option PyVal
  initial_value : PyVal

/-- Source `UpdatedTypes`: inferred annotations (`inferred_types` is a
Python dict, modelled as an insertion-ordered association list) and the
set of parameter names classified as arguments (`is_arg`, a Python set,
modelled as a duplicate-free list). -/
structure UpdatedTypes where
  workunit : PyVal
  inferred_types : List (String × String)
  is_arg : List String

/-- Source line `policy = RangePolicy(km.get_default_space(), 0, policy)`
guarded by `isinstance(policy, int)`: a plain integer policy is wrapped
into a default range policy, anything else is kept unchanged. -/
def resolve_policy : PyVal → PyVal
  | .vint n => .vpolicy (.RangePolicy get_default_space 0 n)
  | policy => policy

/-- Source `handle_args(is_for, *args)`: classify a 2-4 element argument
tuple into a `HandledArgs` record, following the source's chain of
`isinstance` checks branch for branch. -/
def handle_args (is_for : Bool) (unpacked : List PyVal) : Except PyError HandledArgs :=
  match unpacked with
  | [a, b] =>
      .ok { name := none, policy := resolve_policy a, workunit := b,
            view := none, initial_value := .vint 0 }
  | [a, b, c] =>
      match a with
      | .vstr s =>
          .ok { name := some s, policy := resolve_policy b, workunit := c,
                view := none, initial_value := .vint 0 }
      | _ =>
          if is_for && c.isinstance_ViewType then
            .ok { name := none, policy := resolve_policy a, workunit := b,
                  view := some c, initial_value := .vint 0 }
          else if c.isinstance_numeric then
            .ok { name := none, policy := resolve_policy a, workunit := b,
                  view := none, initial_value := c }
          else .error (.typeError "ERROR: wrong arguments")
  | [a, b, c, d] =>
      match a with
      | .vstr s =>
          if is_for && d.isinstance_ViewType then
            .ok { name := some s, policy := resolve_policy b, workunit := c,
                  view := some d, initial_value := .vint 0 }
          else if d.isinstance_numeric then
            .ok { name := some s, policy := resolve_policy b, workunit := c,
                  view := none, initial_value := d }
          else .error (.typeError "ERROR: wrong arguments")
      | _ => .error (.typeError "ERROR: wrong arguments")
  | _ => .error (.valueError "ERROR: incorrect number of arguments")

/-- Source `inspect.signature(handled_args.workunit).parameters`: the
parameter list of a callable; a non-callable raises `TypeError`. -/
def signature_params : PyVal → Except PyError (List Param)
  | .vworkunit ps => .ok ps
  | _ => .error (.typeError "ERROR: object is not callable")

/-- Lookup in a string-keyed association list (first match), used for
Python dict lookup and membership. -/
def alist_lookup {α : Type} (k : String) : List (String × α) → Option α
  | [] => none
  | (k1, v) :: rest => if k1 = k then some v else alist_lookup k rest

/-- Python dict assignment `d[k] = v`: replace in place if the key is
present (keeping its position), otherwise append. -/
def dict_set (d : List (String × String)) (k v : String) : List (String × String) :=
  if k ∈ d.map Prod.fst then
    d.map (fun kv => if kv.1 = k then (k, v) else kv)
  else d ++ [(k, v)]

/-- Python set insertion `s.add(x)`. -/
def set_add (s : List String) (x : String) : List String :=
  if x ∈ s then s else s ++ [x]

/-- The source's paired update `updated_types.inferred_types[param.name] =
t` immediately followed by `updated_types.is_arg.add(param.name)` (every
inference site in the source performs exactly this pair). -/
def record_inference (acc : UpdatedTypes) (k t : String) : UpdatedTypes :=
  { acc with inferred_types := dict_set acc.inferred_types k t,
             is_arg := set_add acc.is_arg k }

/-- Source `policy_params = len(handled_args.policy.begin) if
isinstance(handled_args.policy, MDRangePolicy) else 1`. -/
def policy_params_base (policy : PyVal) : Nat :=
  match policy with
  | .vpolicy (.MDRangePolicy pbegin _) => pbegin.length
  | _ => 1

/-- The policy-slot count after the source's `if parallel_type ==
"parallel_reduce": policy_params += 1` (accumulator slot). -/
def policy_params_of (parallel_type : String) (policy : PyVal) : Nat :=
  policy_params_base policy + (if parallel_type = "parallel_reduce" then 1 else 0)

/-- Source `total_dims = len(handled_args.policy.begin)` (read only in the
`MDRangePolicy` branch). -/
def mdrange_total_dims : PyVal → Nat
  | .vpolicy (.MDRangePolicy pbegin _) => pbegin.length
  | _ => 0

/-- Whether the policy is one of the four kinds the inferencer supports. -/
def supported_policy (policy : PyVal) : Bool :=
  policy.isinstance_RangePolicy || policy.isinstance_TeamThreadRange ||
  policy.isinstance_TeamPolicy || policy.isinstance_MDRangePolicy

/-- One iteration of the source's first loop (`for i in
range(policy_params)`), for an index `i` and the parameter at that index:
skip annotated parameters, otherwise branch on the policy kind exactly as
the source's `isinstance` chain does, raising `ValueError` for an
unsupported policy, and finally apply the `parallel_reduce` accumulator
override for the last policy slot. -/
def infer_policy_param (parallel_type : String) (policy : PyVal)
    (policy_params i : Nat) (param : Param) (acc : UpdatedTypes) :
    Except PyError UpdatedTypes :=
  match param.annot with
  | some _ => .ok acc
  | none =>
    match
      (if policy.isinstance_RangePolicy || policy.isinstance_TeamThreadRange then
        .ok (if i = 0 then record_inference acc param.name "int" else acc)
      else if policy.isinstance_TeamPolicy then
        .ok (if i = 0 then record_inference acc param.name "pk.TeamMember" else acc)
      else if policy.isinstance_MDRangePolicy then
        .ok (if i < mdrange_total_dims policy then
               record_inference acc param.name "int" else acc)
      else
        (.error (.valueError "Automatic annotations not supported for this policy")
          : Except PyError UpdatedTypes)) with
    | .error e => .error e
    | .ok acc1 =>
      .ok (if i = policy_params - 1 ∧ parallel_type = "parallel_reduce" then
             record_inference acc1 param.name "Acc:float" else acc1)

/-- The source's first loop, driven over the list of indices
`range(policy_params)`; `param_list[i]` out of range raises `IndexError`. -/
def policy_loop (parallel_type : String) (policy : PyVal) (policy_params : Nat)
    (param_list : List Param) : List Nat → UpdatedTypes → Except PyError UpdatedTypes
  | [], acc => .ok acc
  | i :: rest, acc =>
    match param_list.get? i with
    | none => .error (.indexError "list index out of range")
    | some param =>
      match infer_policy_param parallel_type policy policy_params i param acc with
      | .error e => .error e
      | .ok acc1 => policy_loop parallel_type policy policy_params param_list rest acc1

/-- Source `type(value).__name__` for the modelled value universe. -/
def type_name : PyVal → String
  | .vstr _ => "str"
  | .vint _ => "int"
  | .vfloat _ => "float"
  | .vview _ => "View"
  | .vpolicy (.RangePolicy ..) => "RangePolicy"
  | .vpolicy .TeamThreadRange => "TeamThreadRange"
  | .vpolicy .TeamPolicy => "TeamPolicy"
  | .vpolicy (.MDRangePolicy ..) => "MDRangePolicy"
  | .vworkunit _ => "function"
  | .vother ty => ty

/-- Source descriptor derivation: `param_type = type(value).__name__`,
overridden for views by `"View" + str(len(value.shape)) + "D:" +
str(value.dtype.name)`. -/
def infer_value_type (value : PyVal) : String :=
  match value with
  | .vview v => "View" ++ toString v.shape.length ++ "D:" ++ v.dtype_name
  | _ => type_name value

/-- The source's keyword fold: `for param in param_list[policy_params:]:
if param.name in passed_kwargs: args_list.append(passed_kwargs[param.name])`. -/
def fold_kwargs (passed_kwargs : List (String × PyVal)) :
    List Param → List PyVal → List PyVal
  | [], args_list => args_list
  | p :: rest, args_list =>
    match alist_lookup p.name passed_kwargs with
    | some v => fold_kwargs passed_kwargs rest (args_list ++ [v])
    | none => fold_kwargs passed_kwargs rest args_list

/-- The keyword fold guarded by the source's `if len(passed_kwargs.keys()):`. -/
def queue_kwargs (param_list : List Param) (policy_params : Nat)
    (passed_kwargs : List (String × PyVal)) (args_list : List PyVal) : List PyVal :=
  if passed_kwargs.length ≠ 0 then
    fold_kwargs passed_kwargs (param_list.drop policy_params) args_list
  else args_list

/-- The source's second loop (`for i in range(policy_params,
len(param_list))`), driven over the list of those indices: skip annotated
parameters, otherwise fetch `args_list[value_idx + i - policy_params]`
and record the derived descriptor. -/
def value_loop (value_idx policy_params : Nat) (args_list : List PyVal)
    (param_list : List Param) : List Nat → UpdatedTypes → Except PyError UpdatedTypes
  | [], acc => .ok acc
  | i :: rest, acc =>
    match param_list.get? i with
    | none => .error (.indexError "list index out of range")
    | some param =>
      match param.annot with
      | some _ => value_loop value_idx policy_params args_list param_list rest acc
      | none =>
        match args_list.get? (value_idx + i - policy_params) with
        | none => .error (.indexError "list index out of range")
        | some value =>
          value_loop value_idx policy_params args_list param_list rest
            (record_inference acc param.name (infer_value_type value))

/-- Source `get_annotations(parallel_type, handled_args, *args,
passed_kwargs)`: signature introspection, the policy-slot loop, the
early return when the workunit has only policy parameters, the keyword
fold, `value_idx`, the argument-count `assert`, the value loop, and the
final empty-result check, in the source's order. -/
def get_annotations (parallel_type : String) (handled_args : HandledArgs)
    (args : List PyVal) (passed_kwargs : List (String × PyVal)) :
    Except PyError (Option UpdatedTypes) :=
  match signature_params handled_args.workunit with
  | .error e => .error e
  | .ok param_list =>
    match policy_loop parallel_type handled_args.policy
        (policy_params_of parallel_type handled_args.policy) param_list
        (List.range (policy_params_of parallel_type handled_args.policy))
        { workunit := handled_args.workunit, inferred_types := [], is_arg := [] } with
    | .error e => .error e
    | .ok updated1 =>
      if param_list.length = policy_params_of parallel_type handled_args.policy then
        (if updated1.inferred_types.length = 0 then .ok none else .ok (some updated1))
      else
        if (param_list.length : Int) - (policy_params_of parallel_type handled_args.policy : Int)
            = ((queue_kwargs param_list (policy_params_of parallel_type handled_args.policy)
                  passed_kwargs args).length : Int)
              - ((if handled_args.name ≠ none then (3 : Nat) else 2 : Nat) : Int) then
          match value_loop (if handled_args.name ≠ none then (3 : Nat) else 2)
              (policy_params_of parallel_type handled_args.policy)
              (queue_kwargs param_list (policy_params_of parallel_type handled_args.policy)
                passed_kwargs args)
              param_list
              (List.range' (policy_params_of parallel_type handled_args.policy)
                (param_list.length - policy_params_of parallel_type handled_args.policy))
              updated1 with
          | .error e => .error e
          | .ok updated2 =>
            (if updated2.inferred_types.length = 0 then .ok none else .ok (some updated2))
        else .error (.assertionError "Unannotated arguments mismatch")

/-- The `UpdatedTypes` invariant relating the two result fields: the names
classified as arguments are exactly the keys of the inferred-type map. -/
def arg_keys_inv (u : UpdatedTypes) : Prop :=
  ∀ s, s ∈ u.is_arg ↔ s ∈ u.inferred_types.map Prod.fst

/-! Helper lemmas on the dict / set primitives. -/

lemma alist_lookup_cons {α : Type} (k k1 : String) (v : α) (rest : List (String × α)) :
    alist_lookup k ((k1, v) :: rest) = if k1 = k then some v else alist_lookup k rest := rfl

lemma alist_lookup_eq_none {α : Type} (k : String) (l : List (String × α))
    (h : k ∉ l.map Prod.fst) : alist_lookup k l = none := by
  induction l with
  | nil => rfl
  | cons kv rest ih =>
    obtain ⟨k1, v1⟩ := kv
    simp only [List.map_cons, List.mem_cons] at h
    push_neg at h
    rw [alist_lookup_cons, if_neg (fun he : k1 = k => h.1 he.symm)]
    exact ih h.2

lemma alist_lookup_append_of_none {α : Type} (k : String) (l1 l2 : List (String × α))
    (h : alist_lookup k l1 = none) : alist_lookup k (l1 ++ l2) = alist_lookup k l2 := by
  induction l1 with
  | nil => rfl
  | cons kv rest ih =>
    obtain ⟨k1, v1⟩ := kv
    rw [alist_lookup_cons] at h
    by_cases h1 : k1 = k
    · rw [if_pos h1] at h
      exact absurd h (by simp)
    · rw [if_neg h1] at h
      rw [List.cons_append, alist_lookup_cons, if_neg h1]
      exact ih h

lemma alist_lookup_append_of_some {α : Type} (k : String) (l1 l2 : List (String × α))
    (v : α) (h : alist_lookup k l1 = some v) : alist_lookup k (l1 ++ l2) = some v := by
  induction l1 with
  | nil => simp [alist_lookup] at h
  | cons kv rest ih =>
    obtain ⟨k1, v1⟩ := kv
    rw [alist_lookup_cons] at h
    rw [List.cons_append, alist_lookup_cons]
    by_cases h1 : k1 = k
    · rwa [if_pos h1] at h ⊢
    · rw [if_neg h1] at h ⊢
      exact ih h

lemma alist_lookup_map_set (d : List (String × String)) (k v : String)
    (hmem : k ∈ d.map Prod.fst) :
    alist_lookup k (d.map (fun kv => if kv.1 = k then (k, v) else kv)) = some v := by
  induction d with
  | nil => simp at hmem
  | cons kv rest ih =>
    obtain ⟨k1, v1⟩ := kv
    by_cases h : k1 = k
    · subst h
      rw [List.map_cons, if_pos (show (k1, v1).1 = k1 from rfl), alist_lookup_cons,
        if_pos rfl]
    · have h1 : k ∈ rest.map Prod.fst := by
        have hm := hmem
        simp only [List.map_cons, List.mem_cons] at hm
        rcases hm with h2 | h2
        · exact absurd h2.symm h
        · exact h2
      rw [List.map_cons, if_neg (show ¬((k1, v1).1 = k) from h), alist_lookup_cons,
        if_neg h]
      exact ih h1

lemma alist_lookup_map_set_ne (d : List (String × String)) (k v x : String)
    (h : x ≠ k) :
    alist_lookup x (d.map (fun kv => if kv.1 = k then (k, v) else kv)) =
      alist_lookup x d := by
  induction d with
  | nil => rfl
  | cons kv rest ih =>
    obtain ⟨k1, v1⟩ := kv
    by_cases h1 : k1 = k
    · subst h1
      rw [List.map_cons, if_pos (show (k1, v1).1 = k1 from rfl), alist_lookup_cons,
        alist_lookup_cons, if_neg (fun he : k1 = x => h he.symm),
        if_neg (fun he : k1 = x => h he.symm)]
      exact ih
    · rw [List.map_cons, if_neg (show ¬((k1, v1).1 = k) from h1), alist_lookup_cons,
        alist_lookup_cons]
      by_cases h2 : k1 = x
      · rw [if_pos h2, if_pos h2]
      · rw [if_neg h2, if_neg h2]
        exact ih

lemma alist_lookup_dict_set_self (d : List (String × String)) (k v : String) :
    alist_lookup k (dict_set d k v) = some v := by
  unfold dict_set
  split
  · exact alist_lookup_map_set d k v (by assumption)
  · rename_i hmem
    rw [alist_lookup_append_of_none k d _ (alist_lookup_eq_none k d hmem),
      alist_lookup_cons, if_pos rfl]

lemma alist_lookup_dict_set_ne (d : List (String × String)) (k v x : String)
    (h : x ≠ k) : alist_lookup x (dict_set d k v) = alist_lookup x d := by
  unfold dict_set
  split
  · exact alist_lookup_map_set_ne d k v x h
  · cases hd : alist_lookup x d with
    | none =>
      rw [alist_lookup_append_of_none x d _ hd, alist_lookup_cons,
        if_neg (fun he : k = x => h he.symm)]
      rfl
    | some w => exact alist_lookup_append_of_some x d _ w hd

lemma map_fst_map_set (d : List (String × String)) (k v : String) :
    (d.map (fun kv => if kv.1 = k then (k, v) else kv)).map Prod.fst =
      d.map Prod.fst := by
  induction d with
  | nil => rfl
  | cons kv rest ih =>
    obtain ⟨k1, v1⟩ := kv
    by_cases h : k1 = k
    · subst h
      rw [List.map_cons, if_pos (show (k1, v1).1 = k1 from rfl), List.map_cons,
        List.map_cons, ih]
    · rw [List.map_cons, if_neg (show ¬((k1, v1).1 = k) from h), List.map_cons,
        List.map_cons, ih]

lemma keys_dict_set (d : List (String × String)) (k v x : String) :
    x ∈ (dict_set d k v).map Prod.fst ↔ x = k ∨ x ∈ d.map Prod.fst := by
  unfold dict_set
  split
  · rename_i hmem
    rw [map_fst_map_set]
    constructor
    · exact Or.inr
    · rintro (rfl | h)
      · exact hmem
      · exact h
  · simp only [List.map_append, List.mem_append, List.map_cons, List.map_nil,
      List.mem_singleton]
    tauto

lemma mem_set_add (s : List String) (x y : String) :
    y ∈ set_add s x ↔ y = x ∨ y ∈ s := by
  unfold set_add
  split
  · rename_i h
    constructor
    · exact Or.inr
    · rintro (rfl | h2)
      · exact h
      · exact h2
  · simp only [List.mem_append, List.mem_singleton]
    tauto

lemma alist_lookup_length_ne_zero {α : Type} {k : String} {l : List (String × α)}
    {v : α} (h : alist_lookup k l = some v) : l.length ≠ 0 := by
  cases l with
  | nil => simp [alist_lookup] at h
  | cons kv rest => simp

/-! Helper lemmas on `record_inference`. -/

lemma record_lookup_self (acc : UpdatedTypes) (k t : String) :
    alist_lookup k (record_inference acc k t).inferred_types = some t :=
  alist_lookup_dict_set_self acc.inferred_types k t

lemma record_mem_self (acc : UpdatedTypes) (k t : String) :
    k ∈ (record_inference acc k t).is_arg :=
  (mem_set_add acc.is_arg k k).mpr (Or.inl rfl)

lemma record_frame (acc : UpdatedTypes) (k t x : String) (h : x ≠ k) :
    alist_lookup x (record_inference acc k t).inferred_types =
        alist_lookup x acc.inferred_types
      ∧ (x ∈ (record_inference acc k t).is_arg ↔ x ∈ acc.is_arg) := by
  refine ⟨alist_lookup_dict_set_ne acc.inferred_types k t x h, ?_⟩
  rw [show (record_inference acc k t).is_arg = set_add acc.is_arg k from rfl,
    mem_set_add]
  simp [h]

lemma record_inv (acc : UpdatedTypes) (k t : String) (h : arg_keys_inv acc) :
    arg_keys_inv (record_inference acc k t) := by
  intro s
  rw [show (record_inference acc k t).is_arg = set_add acc.is_arg k from rfl,
    mem_set_add,
    show (record_inference acc k t).inferred_types = dict_set acc.inferred_types k t
      from rfl, keys_dict_set]
  rw [h s]

lemma record_touched (acc : UpdatedTypes) (k t x : String)
    (h : x ∈ (record_inference acc k t).is_arg ∨
         x ∈ (record_inference acc k t).inferred_types.map Prod.fst) :
    x = k ∨ (x ∈ acc.is_arg ∨ x ∈ acc.inferred_types.map Prod.fst) := by
  rcases h with h | h
  · rcases (mem_set_add acc.is_arg k x).mp h with h | h
    · exact Or.inl h
    · exact Or.inr (Or.inl h)
  · rcases (keys_dict_set acc.inferred_types k t x).mp h with h | h
    · exact Or.inl h
    · exact Or.inr (Or.inr h)

/-! Structural lemmas about one step of the policy-slot loop. -/

lemma infer_policy_param_shape (pt : String) (pol : PyVal) (pp i : Nat)
    (param : Param) (acc acc1 : UpdatedTypes)
    (h : infer_policy_param pt pol pp i param acc = .ok acc1) :
    acc1 = acc ∨ (param.annot = none ∧
      ((∃ t, acc1 = record_inference acc param.name t) ∨
       (∃ t t2, acc1 = record_inference (record_inference acc param.name t)
          param.name t2))) := by
  cases ha : param.annot with
  | some a =>
    simp only [infer_policy_param, ha, Except.ok.injEq] at h
    exact Or.inl h.symm
  | none =>
    simp only [infer_policy_param, ha] at h
    split at h
    · exact absurd h (by simp)
    · rename_i acc0 heq
      simp only [Except.ok.injEq] at h
      subst h
      split at heq
      · simp only [Except.ok.injEq] at heq
        subst heq
        split
        · split
          · exact Or.inr ⟨rfl, Or.inr ⟨_, _, rfl⟩⟩
          · exact Or.inr ⟨rfl, Or.inl ⟨_, rfl⟩⟩
        · split
          · exact Or.inr ⟨rfl, Or.inl ⟨_, rfl⟩⟩
          · exact Or.inl rfl
      · split at heq
        · simp only [Except.ok.injEq] at heq
          subst heq
          split
          · split
            · exact Or.inr ⟨rfl, Or.inr ⟨_, _, rfl⟩⟩
            · exact Or.inr ⟨rfl, Or.inl ⟨_, rfl⟩⟩
          · split
            · exact Or.inr ⟨rfl, Or.inl ⟨_, rfl⟩⟩
            · exact Or.inl rfl
        · split at heq
          · simp only [Except.ok.injEq] at heq
            subst heq
            split
            · split
              · exact Or.inr ⟨rfl, Or.inr ⟨_, _, rfl⟩⟩
              · exact Or.inr ⟨rfl, Or.inl ⟨_, rfl⟩⟩
            · split
              · exact Or.inr ⟨rfl, Or.inl ⟨_, rfl⟩⟩
              · exact Or.inl rfl
          · exact absurd heq (by simp)

lemma infer_policy_param_frame (pt : String) (pol : PyVal) (pp i : Nat)
    (param : Param) (acc acc1 : UpdatedTypes) (x : String)
    (h : infer_policy_param pt pol pp i param acc = .ok acc1)
    (hx : param.name ≠ x) :
    alist_lookup x acc1.inferred_types = alist_lookup x acc.inferred_types
      ∧ (x ∈ acc1.is_arg ↔ x ∈ acc.is_arg) := by
  rcases infer_policy_param_shape pt pol pp i param acc acc1 h with
    rfl | ⟨-, ⟨t, rfl⟩ | ⟨t, t2, rfl⟩⟩
  · exact ⟨rfl, Iff.rfl⟩
  · exact record_frame acc param.name t x (Ne.symm hx)
  · have h1 := record_frame (record_inference acc param.name t) param.name t2 x
      (Ne.symm hx)
    have h2 := record_frame acc param.name t x (Ne.symm hx)
    exact ⟨h1.1.trans h2.1, h1.2.trans h2.2⟩

lemma infer_policy_param_inv (pt : String) (pol : PyVal) (pp i : Nat)
    (param : Param) (acc acc1 : UpdatedTypes)
    (h : infer_policy_param pt pol pp i param acc = .ok acc1)
    (hi : arg_keys_inv acc) : arg_keys_inv acc1 := by
  rcases infer_policy_param_shape pt pol pp i param acc acc1 h with
    rfl | ⟨-, ⟨t, rfl⟩ | ⟨t, t2, rfl⟩⟩
  · exact hi
  · exact record_inv _ _ _ hi
  · exact record_inv _ _ _ (record_inv _ _ _ hi)

lemma infer_policy_param_names (pt : String) (pol : PyVal) (pp i : Nat)
    (param : Param) (acc acc1 : UpdatedTypes) (x : String)
    (h : infer_policy_param pt pol pp i param acc = .ok acc1)
    (hx : x ∈ acc1.is_arg ∨ x ∈ acc1.inferred_types.map Prod.fst) :
    (x ∈ acc.is_arg ∨ x ∈ acc.inferred_types.map Prod.fst) ∨
      (param.annot = none ∧ x = param.name) := by
  rcases infer_policy_param_shape pt pol pp i param acc acc1 h with
    rfl | ⟨hann, ⟨t, rfl⟩ | ⟨t, t2, rfl⟩⟩
  · exact Or.inl hx
  · rcases record_touched _ _ _ _ hx with h1 | h1
    · exact Or.inr ⟨hann, h1⟩
    · exact Or.inl h1
  · rcases record_touched _ _ _ _ hx with h1 | h1
    · exact Or.inr ⟨hann, h1⟩
    · rcases record_touched _ _ _ _ h1 with h2 | h2
      · exact Or.inr ⟨hann, h2⟩
      · exact Or.inl h2

/-! Lemmas about the two loops. -/

lemma policy_loop_append (pt : String) (pol : PyVal) (pp : Nat) (pl : List Param)
    (l1 l2 : List Nat) (acc : UpdatedTypes) :
    policy_loop pt pol pp pl (l1 ++ l2) acc =
      match policy_loop pt pol pp pl l1 acc with
      | .error e => .error e
      | .ok acc1 => policy_loop pt pol pp pl l2 acc1 := by
  induction l1 generalizing acc with
  | nil => rfl
  | cons i rest ih =>
    cases hg : pl.get? i with
    | none => simp only [List.cons_append, policy_loop, hg]
    | some param =>
      cases hstep : infer_policy_param pt pol pp i param acc with
      | error e => simp only [List.cons_append, policy_loop, hg, hstep]
      | ok acc1 =>
        simp only [List.cons_append, policy_loop, hg, hstep]
        exact ih acc1

lemma policy_loop_frame (pt : String) (pol : PyVal) (pp : Nat) (pl : List Param)
    (is : List Nat) (acc acc1 : UpdatedTypes) (x : String)
    (h : policy_loop pt pol pp pl is acc = .ok acc1)
    (hx : ∀ i ∈ is, ∀ p : Param, pl.get? i = some p → p.name ≠ x) :
    alist_lookup x acc1.inferred_types = alist_lookup x acc.inferred_types
      ∧ (x ∈ acc1.is_arg ↔ x ∈ acc.is_arg) := by
  induction is generalizing acc with
  | nil =>
    simp only [policy_loop, Except.ok.injEq] at h
    subst h
    exact ⟨rfl, Iff.rfl⟩
  | cons i rest ih =>
    simp only [policy_loop] at h
    split at h
    · exact absurd h (by simp)
    · rename_i param hg
      split at h
      · exact absurd h (by simp)
      · rename_i acc2 hstep
        have hfr := infer_policy_param_frame pt pol pp i param acc acc2 x hstep
          (hx i (List.mem_cons_self i rest) param hg)
        have hrest := ih acc2 h (fun j hj p hp => hx j (List.mem_cons_of_mem i hj) p hp)
        exact ⟨hrest.1.trans hfr.1, hrest.2.trans hfr.2⟩

lemma policy_loop_skip_all (pt : String) (pol : PyVal) (pp : Nat) (pl : List Param)
    (is : List Nat) (acc acc1 : UpdatedTypes)
    (h : policy_loop pt pol pp pl is acc = .ok acc1)
    (hann : ∀ i ∈ is, ∀ p : Param, pl.get? i = some p → p.annot ≠ none) :
    acc1 = acc := by
  induction is generalizing acc with
  | nil =>
    simp only [policy_loop, Except.ok.injEq] at h
    exact h.symm
  | cons i rest ih =>
    simp only [policy_loop] at h
    split at h
    · exact absurd h (by simp)
    · rename_i param hg
      split at h
      · exact absurd h (by simp)
      · rename_i acc2 hstep
        cases hao : param.annot with
        | none => exact absurd hao (hann i (List.mem_cons_self i rest) param hg)
        | some a =>
          simp only [infer_policy_param, hao, Except.ok.injEq] at hstep
          subst hstep
          exact ih acc h (fun j hj p hp => hann j (List.mem_cons_of_mem i hj) p hp)

lemma policy_loop_inv (pt : String) (pol : PyVal) (pp : Nat) (pl : List Param)
    (is : List Nat) (acc acc1 : UpdatedTypes)
    (h : policy_loop pt pol pp pl is acc = .ok acc1)
    (hi : arg_keys_inv acc) : arg_keys_inv acc1 := by
  induction is generalizing acc with
  | nil =>
    simp only [policy_loop, Except.ok.injEq] at h
    subst h
    exact hi
  | cons i rest ih =>
    simp only [policy_loop] at h
    split at h
    · exact absurd h (by simp)
    · rename_i param hg
      split at h
      · exact absurd h (by simp)
      · rename_i acc2 hstep
        exact ih acc2 h (infer_policy_param_inv pt pol pp i param acc acc2 hstep hi)

lemma policy_loop_names (pt : String) (pol : PyVal) (pp : Nat) (pl : List Param)
    (is : List Nat) (acc acc1 : UpdatedTypes) (x : String)
    (h : policy_loop pt pol pp pl is acc = .ok acc1)
    (hx : x ∈ acc1.is_arg ∨ x ∈ acc1.inferred_types.map Prod.fst) :
    (x ∈ acc.is_arg ∨ x ∈ acc.inferred_types.map Prod.fst) ∨
      ∃ i ∈ is, ∃ p : Param, pl.get? i = some p ∧ p.annot = none ∧ x = p.name := by
  induction is generalizing acc with
  | nil =>
    simp only [policy_loop, Except.ok.injEq] at h
    subst h
    exact Or.inl hx
  | cons i rest ih =>
    simp only [policy_loop] at h
    split at h
    · exact absurd h (by simp)
    · rename_i param hg
      split at h
      · exact absurd h (by simp)
      · rename_i acc2 hstep
        rcases ih acc2 h with h1 | ⟨j, hj, p, hp, hpa, hxe⟩
        · rcases infer_policy_param_names pt pol pp i param acc acc2 x hstep h1 with
            h2 | ⟨hann, hxe⟩
          · exact Or.inl h2
          · exact Or.inr ⟨i, List.mem_cons_self i rest, param, hg, hann, hxe⟩
        · exact Or.inr ⟨j, List.mem_cons_of_mem i hj, p, hp, hpa, hxe⟩

lemma value_loop_frame (vi pp : Nat) (al : List PyVal) (pl : List Param)
    (is : List Nat) (acc acc1 : UpdatedTypes) (x : String)
    (h : value_loop vi pp al pl is acc = .ok acc1)
    (hx : ∀ i ∈ is, ∀ p : Param, pl.get? i = some p → p.name ≠ x) :
    alist_lookup x acc1.inferred_types = alist_lookup x acc.inferred_types
      ∧ (x ∈ acc1.is_arg ↔ x ∈ acc.is_arg) := by
  induction is generalizing acc with
  | nil =>
    simp only [value_loop, Except.ok.injEq] at h
    subst h
    exact ⟨rfl, Iff.rfl⟩
  | cons i rest ih =>
    simp only [value_loop] at h
    split at h
    · exact absurd h (by simp)
    · rename_i param hg
      split at h
      · exact ih acc h (fun j hj p hp => hx j (List.mem_cons_of_mem i hj) p hp)
      · split at h
        · exact absurd h (by simp)
        · rename_i value hv
          have hfr := record_frame acc param.name (infer_value_type value) x
            (Ne.symm (hx i (List.mem_cons_self i rest) param hg))
          have hrest := ih _ h (fun j hj p hp => hx j (List.mem_cons_of_mem i hj) p hp)
          exact ⟨hrest.1.trans hfr.1, hrest.2.trans hfr.2⟩

lemma value_loop_skip_all (vi pp : Nat) (al : List PyVal) (pl : List Param)
    (is : List Nat) (acc acc1 : UpdatedTypes)
    (h : value_loop vi pp al pl is acc = .ok acc1)
    (hann : ∀ i ∈ is, ∀ p : Param, pl.get? i = some p → p.annot ≠ none) :
    acc1 = acc := by
  induction is generalizing acc with
  | nil =>
    simp only [value_loop, Except.ok.injEq] at h
    exact h.symm
  | cons i rest ih =>
    simp only [value_loop] at h
    split at h
    · exact absurd h (by simp)
    · rename_i param hg
      split at h
      · exact ih acc h (fun j hj p hp => hann j (List.mem_cons_of_mem i hj) p hp)
      · rename_i hao
        exact absurd hao (hann i (List.mem_cons_self i rest) param hg)

lemma value_loop_inv (vi pp : Nat) (al : List PyVal) (pl : List Param)
    (is : List Nat) (acc acc1 : UpdatedTypes)
    (h : value_loop vi pp al pl is acc = .ok acc1)
    (hi : arg_keys_inv acc) : arg_keys_inv acc1 := by
  induction is generalizing acc with
  | nil =>
    simp only [value_loop, Except.ok.injEq] at h
    subst h
    exact hi
  | cons i rest ih =>
    simp only [value_loop] at h
    split at h
    · exact absurd h (by simp)
    · rename_i param hg
      split at h
      · exact ih acc h hi
      · split at h
        · exact absurd h (by simp)
        · exact ih _ h (record_inv _ _ _ hi)

lemma value_loop_names (vi pp : Nat) (al : List PyVal) (pl : List Param)
    (is : List Nat) (acc acc1 : UpdatedTypes) (x : String)
    (h : value_loop vi pp al pl is acc = .ok acc1)
    (hx : x ∈ acc1.is_arg ∨ x ∈ acc1.inferred_types.map Prod.fst) :
    (x ∈ acc.is_arg ∨ x ∈ acc.inferred_types.map Prod.fst) ∨
      ∃ i ∈ is, ∃ p : Param, pl.get? i = some p ∧ p.annot = none ∧ x = p.name := by
  induction is generalizing acc with
  | nil =>
    simp only [value_loop, Except.ok.injEq] at h
    subst h
    exact Or.inl hx
  | cons i rest ih =>
    simp only [value_loop] at h
    split at h
    · exact absurd h (by simp)
    · rename_i param hg
      split at h
      · rcases ih acc h with h1 | ⟨j, hj, p, hp, hpa, hxe⟩
        · exact Or.inl h1
        · exact Or.inr ⟨j, List.mem_cons_of_mem i hj, p, hp, hpa, hxe⟩
      · rename_i hao
        split at h
        · exact absurd h (by simp)
        · rename_i value hv
          rcases ih _ h with h1 | ⟨j, hj, p, hp, hpa, hxe⟩
          · rcases record_touched _ _ _ _ h1 with h2 | h2
            · exact Or.inr ⟨i, List.mem_cons_self i rest, param, hg, hao, h2⟩
            · exact Or.inl h2
          · exact Or.inr ⟨j, List.mem_cons_of_mem i hj, p, hp, hpa, hxe⟩

lemma value_loop_append (vi pp : Nat) (al : List PyVal) (pl : List Param)
    (l1 l2 : List Nat) (acc : UpdatedTypes) :
    value_loop vi pp al pl (l1 ++ l2) acc =
      match value_loop vi pp al pl l1 acc with
      | .error e => .error e
      | .ok acc1 => value_loop vi pp al pl l2 acc1 := by
  induction l1 generalizing acc with
  | nil => rfl
  | cons i rest ih =>
    cases hg : pl.get? i with
    | none => simp only [List.cons_append, value_loop, hg]
    | some param =>
      cases hao : param.annot with
      | some a =>
        simp only [List.cons_append, value_loop, hg, hao]
        exact ih acc
      | none =>
        cases hv : al.get? (vi + i - pp) with
        | none => simp only [List.cons_append, value_loop, hg, hao, hv]
        | some value =>
          simp only [List.cons_append, value_loop, hg, hao, hv]
          exact ih _

lemma param_names_inj {pl : List Param} (hnd : (pl.map Param.name).Nodup)
    {i j : Nat} {p q : Param} (hi : pl.get? i = some p) (hj : pl.get? j = some q)
    (hname : p.name = q.name) : i = j := by
  have h1 : (pl.map Param.name).get? i = some p.name := by
    rw [List.get?_map, hi]
    rfl
  have h2 : (pl.map Param.name).get? j = some q.name := by
    rw [List.get?_map, hj]
    rfl
  have hlen : i < (pl.map Param.name).length := by
    rw [List.length_map]
    obtain ⟨hl, -⟩ := List.get?_eq_some.mp hi
    exact hl
  exact List.get?_inj hlen hnd (by rw [h1, h2, hname])

lemma policy_loop_unsupported (pt : String) (pol : PyVal) (pp : Nat)
    (pl : List Param) (hsup : supported_policy pol = false) :
    ∀ (n s : Nat) (acc : UpdatedTypes),
    (∃ i, s ≤ i ∧ i < s + n ∧ ∃ p : Param, pl.get? i = some p ∧ p.annot = none) →
    policy_loop pt pol pp pl (List.range' s n) acc =
      .error (.valueError "Automatic annotations not supported for this policy") := by
  intro n
  induction n with
  | zero =>
    rintro s acc ⟨i, hsi, hlt, -⟩
    omega
  | succ m ih =>
    rintro s acc ⟨i, hsi, hlt, p, hp, hpann⟩
    have hsl : s < pl.length := by
      obtain ⟨hl, -⟩ := List.get?_eq_some.mp hp
      omega
    obtain ⟨q, hq⟩ : ∃ q, pl.get? s = some q := by
      cases hgs : pl.get? s with
      | none =>
        rw [List.get?_eq_none] at hgs
        omega
      | some q => exact ⟨q, rfl⟩
    simp only [List.range'_succ, policy_loop, hq]
    have hfail : ∀ acc0 : UpdatedTypes, q.annot = none →
        infer_policy_param pt pol pp s q acc0 =
          .error (.valueError "Automatic annotations not supported for this policy") := by
      intro acc0 hqa
      have hs : pol.isinstance_RangePolicy = false ∧ pol.isinstance_TeamThreadRange = false
          ∧ pol.isinstance_TeamPolicy = false ∧ pol.isinstance_MDRangePolicy = false := by
        simp only [supported_policy, Bool.or_eq_false_iff] at hsup
        exact ⟨hsup.1.1.1, hsup.1.1.2, hsup.1.2, hsup.2⟩
      simp only [infer_policy_param, hqa, hs.1, hs.2.1, hs.2.2.1, hs.2.2.2,
        Bool.or_self, Bool.false_eq_true, if_false]
    cases hqa : q.annot with
    | none => simp only [hfail acc hqa]
    | some a =>
      have hstep : infer_policy_param pt pol pp s q acc = .ok acc := by
        simp only [infer_policy_param, hqa]
      simp only [hstep]
      have hne : i ≠ s := by
        intro he
        rw [he, hq] at hp
        injection hp with hpq
        rw [← hpq, hqa] at hpann
        exact Option.noConfusion hpann
      exact ih (s + 1) acc ⟨i, by omega, by omega, p, hp, hpann⟩

lemma get_annotations_cases (pt : String) (ha : HandledArgs) (args : List PyVal)
    (kwargs : List (String × PyVal)) (r : Option UpdatedTypes)
    (h : get_annotations pt ha args kwargs = .ok r) :
    ∃ pl, signature_params ha.workunit = .ok pl ∧
      ∃ u1, policy_loop pt ha.policy (policy_params_of pt ha.policy) pl
          (List.range (policy_params_of pt ha.policy))
          { workunit := ha.workunit, inferred_types := [], is_arg := [] } = .ok u1 ∧
        ((pl.length = policy_params_of pt ha.policy ∧
           ((u1.inferred_types.length = 0 ∧ r = none) ∨
            (u1.inferred_types.length ≠ 0 ∧ r = some u1))) ∨
         (pl.length ≠ policy_params_of pt ha.policy ∧
          (pl.length : Int) - (policy_params_of pt ha.policy : Int)
            = ((queue_kwargs pl (policy_params_of pt ha.policy) kwargs args).length : Int)
              - ((if ha.name ≠ none then (3 : Nat) else 2 : Nat) : Int) ∧
          ∃ u2, value_loop (if ha.name ≠ none then (3 : Nat) else 2)
              (policy_params_of pt ha.policy)
              (queue_kwargs pl (policy_params_of pt ha.policy) kwargs args) pl
              (List.range' (policy_params_of pt ha.policy)
                (pl.length - policy_params_of pt ha.policy)) u1 = .ok u2 ∧
            ((u2.inferred_types.length = 0 ∧ r = none) ∨
             (u2.inferred_types.length ≠ 0 ∧ r = some u2)))) := by
  unfold get_annotations at h
  cases hsig : signature_params ha.workunit with
  | error e =>
    rw [hsig] at h
    exact absurd h (by simp)
  | ok pl =>
    rw [hsig] at h
    refine ⟨pl, rfl, ?_⟩
    simp only at h
    cases hloop : policy_loop pt ha.policy (policy_params_of pt ha.policy) pl
        (List.range (policy_params_of pt ha.policy))
        { workunit := ha.workunit, inferred_types := [], is_arg := [] } with
    | error e =>
      rw [hloop] at h
      exact absurd h (by simp)
    | ok u1 =>
      rw [hloop] at h
      refine ⟨u1, rfl, ?_⟩
      simp only at h
      by_cases hlen : pl.length = policy_params_of pt ha.policy
      · rw [if_pos hlen] at h
        refine Or.inl ⟨hlen, ?_⟩
        by_cases hz : u1.inferred_types.length = 0
        · rw [if_pos hz] at h
          simp only [Except.ok.injEq] at h
          exact Or.inl ⟨hz, h.symm⟩
        · rw [if_neg hz] at h
          simp only [Except.ok.injEq] at h
          exact Or.inr ⟨hz, h.symm⟩
      · rw [if_neg hlen] at h
        by_cases hassert : (pl.length : Int) - (policy_params_of pt ha.policy : Int)
            = ((queue_kwargs pl (policy_params_of pt ha.policy) kwargs args).length : Int)
              - ((if ha.name ≠ none then (3 : Nat) else 2 : Nat) : Int)
        · rw [if_pos hassert] at h
          refine Or.inr ⟨hlen, hassert, ?_⟩
          cases hv : value_loop (if ha.name ≠ none then (3 : Nat) else 2)
              (policy_params_of pt ha.policy)
              (queue_kwargs pl (policy_params_of pt ha.policy) kwargs args) pl
              (List.range' (policy_params_of pt ha.policy)
                (pl.length - policy_params_of pt ha.policy)) u1 with
          | error e =>
            rw [hv] at h
            exact absurd h (by simp)
          | ok u2 =>
            rw [hv] at h
            refine ⟨u2, rfl, ?_⟩
            simp only at h
            by_cases hz : u2.inferred_types.length = 0
            · rw [if_pos hz] at h
              simp only [Except.ok.injEq] at h
              exact Or.inl ⟨hz, h.symm⟩
            · rw [if_neg hz] at h
              simp only [Except.ok.injEq] at h
              exact Or.inr ⟨hz, h.symm⟩
        · rw [if_neg hassert] at h
          exact absurd h (by simp)

/-- C2: `handle_args` classifies argument tuples by arity and type with the
fixed precedence: 2 elements give (policy, workunit) with no name, no view
and initial value 0; 3 elements are classified string-first-element as
(name, policy, workunit), else for-mode-and-view-third-element as
(policy, workunit, view), else numeric-third-element as (policy, workunit,
initial_value), else `TypeError`; 4 elements require a string first element
and classify element 3 as view (for-mode) or numeric initial value, else
`TypeError`; any other arity raises `ValueError`. -/
theorem handle_args_c2 :
    (∀ (isf : Bool) (a b : PyVal),
      handle_args isf [a, b] =
        .ok { name := none, policy := resolve_policy a, workunit := b,
              view := none, initial_value := .vint 0 })
  ∧ (∀ (isf : Bool) (s : String) (b c : PyVal),
      handle_args isf [.vstr s, b, c] =
        .ok { name := some s, policy := resolve_policy b, workunit := c,
              view := none, initial_value := .vint 0 })
  ∧ (∀ (isf : Bool) (a b c : PyVal), a.isinstance_str = false →
      (isf && c.isinstance_ViewType) = true →
      handle_args isf [a, b, c] =
        .ok { name := none, policy := resolve_policy a, workunit := b,
              view := some c, initial_value := .vint 0 })
  ∧ (∀ (isf : Bool) (a b c : PyVal), a.isinstance_str = false →
      (isf && c.isinstance_ViewType) = false → c.isinstance_numeric = true →
      handle_args isf [a, b, c] =
        .ok { name := none, policy := resolve_policy a, workunit := b,
              view := none, initial_value := c })
  ∧ (∀ (isf : Bool) (a b c : PyVal), a.isinstance_str = false →
      (isf && c.isinstance_ViewType) = false → c.isinstance_numeric = false →
      handle_args isf [a, b, c] = .error (.typeError "ERROR: wrong arguments"))
  ∧ (∀ (isf : Bool) (s : String) (b c d : PyVal),
      (isf && d.isinstance_ViewType) = true →
      handle_args isf [.vstr s, b, c, d] =
        .ok { name := some s, policy := resolve_policy b, workunit := c,
              view := some d, initial_value := .vint 0 })
  ∧ (∀ (isf : Bool) (s : String) (b c d : PyVal),
      (isf && d.isinstance_ViewType) = false → d.isinstance_numeric = true →
      handle_args isf [.vstr s, b, c, d] =
        .ok { name := some s, policy := resolve_policy b, workunit := c,
              view := none, initial_value := d })
  ∧ (∀ (isf : Bool) (s : String) (b c d : PyVal),
      (isf && d.isinstance_ViewType) = false → d.isinstance_numeric = false →
      handle_args isf [.vstr s, b, c, d] = .error (.typeError "ERROR: wrong arguments"))
  ∧ (∀ (isf : Bool) (a b c d : PyVal), a.isinstance_str = false →
      handle_args isf [a, b, c, d] = .error (.typeError "ERROR: wrong arguments"))
  ∧ (∀ (isf : Bool) (l : List PyVal), l.length ≠ 2 → l.length ≠ 3 → l.length ≠ 4 →
      handle_args isf l = .error (.valueError "ERROR: incorrect number of arguments")) := by
  refine ⟨fun isf a b => rfl, fun isf s b c => rfl, ?_, ?_, ?_, ?_, ?_, ?_, ?_, ?_⟩
  · intro isf a b c h1 h2
    cases a
    case vstr s => exact absurd h1 (by simp [PyVal.isinstance_str])
    all_goals simp only [handle_args, h2, if_true]
  · intro isf a b c h1 h2 h3
    cases a
    case vstr s => exact absurd h1 (by simp [PyVal.isinstance_str])
    all_goals simp only [handle_args, h2, h3, Bool.false_eq_true, if_false, if_true]
  · intro isf a b c h1 h2 h3
    cases a
    case vstr s => exact absurd h1 (by simp [PyVal.isinstance_str])
    all_goals simp only [handle_args, h2, h3, Bool.false_eq_true, if_false]
  · intro isf s b c d h1
    simp only [handle_args, h1, if_true]
  · intro isf s b c d h1 h2
    simp only [handle_args, h1, h2, Bool.false_eq_true, if_false, if_true]
  · intro isf s b c d h1 h2
    simp only [handle_args, h1, h2, Bool.false_eq_true, if_false]
  · intro isf a b c d h1
    cases a
    case vstr s => exact absurd h1 (by simp [PyVal.isinstance_str])
    all_goals rfl
  · intro isf l h2 h3 h4
    rcases l with _ | ⟨a, _ | ⟨b, _ | ⟨c, _ | ⟨d, _ | ⟨e, rest⟩⟩⟩⟩⟩
    · rfl
    · rfl
    · exact absurd rfl h2
    · exact absurd rfl h3
    · exact absurd rfl h4
    · rfl

/-- Witness for C2: concrete instances of the typed-precedence clauses,
obtained by applying `handle_args_c2`. -/
theorem handle_args_c2_witness :
    handle_args true [.vint 1, .vint 2, .vworkunit []] =
        .error (.typeError "ERROR: wrong arguments")
    ∧ handle_args true [.vint 1, .vint 2, .vint 3, .vint 4, .vint 5] =
        .error (.valueError "ERROR: incorrect number of arguments")
    ∧ handle_args false [.vint 7, .vworkunit [], .vfloat 1] =
        .ok { name := none, policy := resolve_policy (.vint 7),
              workunit := .vworkunit [], view := none, initial_value := .vfloat 1 } :=
  ⟨handle_args_c2.2.2.2.2.1 true (.vint 1) (.vint 2) (.vworkunit []) rfl rfl rfl,
   handle_args_c2.2.2.2.2.2.2.2.2.2 true [.vint 1, .vint 2, .vint 3, .vint 4, .vint 5]
     (by decide) (by decide) (by decide),
   handle_args_c2.2.2.2.1 false (.vint 7) (.vworkunit []) (.vfloat 1) rfl rfl rfl⟩

/-- C3: the policy slot resolved by `handle_args` is normalized by
`resolve_policy`, which wraps a plain integer N into a `RangePolicy` over
`[0, N)` on the default execution space and returns any non-integer policy
unchanged; every successful `handle_args` result carries the
`resolve_policy` image of one of its argument elements as its policy. -/
theorem handle_args_c3 :
    (∀ n : Int, resolve_policy (.vint n) =
        .vpolicy (.RangePolicy get_default_space 0 n))
  ∧ (∀ v : PyVal, v.isinstance_int = false → resolve_policy v = v)
  ∧ (∀ (isf : Bool) (args : List PyVal) (r : HandledArgs),
      handle_args isf args = .ok r → ∃ p ∈ args, r.policy = resolve_policy p) := by
  refine ⟨fun n => rfl, ?_, ?_⟩
  · intro v hv
    cases v <;> simp_all [PyVal.isinstance_int, resolve_policy]
  · intro isf args r h
    rcases args with _ | ⟨a, _ | ⟨b, _ | ⟨c, _ | ⟨d, _ | ⟨e, rest⟩⟩⟩⟩⟩
    · exact absurd h (by simp [handle_args])
    · exact absurd h (by simp [handle_args])
    · simp only [handle_args, Except.ok.injEq] at h
      subst h
      exact ⟨_, List.mem_cons_self _ _, rfl⟩
    · cases a
      case vstr s =>
        simp only [handle_args, Except.ok.injEq] at h
        subst h
        exact ⟨_, List.mem_cons_of_mem _ (List.mem_cons_self _ _), rfl⟩
      all_goals
        simp only [handle_args] at h
        split at h
        · simp only [Except.ok.injEq] at h
          subst h
          exact ⟨_, List.mem_cons_self _ _, rfl⟩
        · split at h
          · simp only [Except.ok.injEq] at h
            subst h
            exact ⟨_, List.mem_cons_self _ _, rfl⟩
          · exact absurd h (by simp)
    · cases a
      case vstr s =>
        simp only [handle_args] at h
        split at h
        · simp only [Except.ok.injEq] at h
          subst h
          exact ⟨_, List.mem_cons_of_mem _ (List.mem_cons_self _ _), rfl⟩
        · split at h
          · simp only [Except.ok.injEq] at h
            subst h
            exact ⟨_, List.mem_cons_of_mem _ (List.mem_cons_self _ _), rfl⟩
          · exact absurd h (by simp)
      all_goals exact absurd h (by simp [handle_args])
    · exact absurd h (by simp [handle_args])

/-- Witness for C3: the integer policy 9 is wrapped into a default range
policy over [0, 9), a non-integer policy is unchanged, and a successful
unpacking carries a resolved policy, all via `handle_args_c3`. -/
theorem handle_args_c3_witness :
    resolve_policy (.vstr "x") = .vstr "x"
    ∧ ∃ p ∈ ([.vint 9, .vworkunit []] : List PyVal),
        (HandledArgs.mk none (resolve_policy (.vint 9)) (.vworkunit []) none
          (.vint 0)).policy = resolve_policy p :=
  ⟨handle_args_c3.2.1 (.vstr "x") rfl,
   handle_args_c3.2.2 true [.vint 9, .vworkunit []] _ rfl⟩

/-- C4: the policy-slot count is 1 for `RangePolicy`, `TeamThreadRange`
and `TeamPolicy` and the length of the begin-bound sequence for
`MDRangePolicy`, plus 1 for a `parallel_reduce` dispatch; an unannotated
first policy-slot parameter is inferred from the policy and classified as
a policy argument: "int" for `RangePolicy`/`TeamThreadRange`, the
team-member handle tag for `TeamPolicy`, and for a 3-dimensional
`MDRangePolicy` with three unannotated leading parameters all three get
"int". -/
theorem get_annotations_c4 :
    (∀ pt : String, pt ≠ "parallel_reduce" →
      (∀ (s : String) (b e : Int),
          policy_params_of pt (.vpolicy (.RangePolicy s b e)) = 1)
      ∧ policy_params_of pt (.vpolicy .TeamThreadRange) = 1
      ∧ policy_params_of pt (.vpolicy .TeamPolicy) = 1
      ∧ (∀ bs es : List Int,
          policy_params_of pt (.vpolicy (.MDRangePolicy bs es)) = bs.length))
  ∧ ((∀ (s : String) (b e : Int),
        policy_params_of "parallel_reduce" (.vpolicy (.RangePolicy s b e)) = 2)
     ∧ policy_params_of "parallel_reduce" (.vpolicy .TeamThreadRange) = 2
     ∧ policy_params_of "parallel_reduce" (.vpolicy .TeamPolicy) = 2
     ∧ (∀ bs es : List Int,
        policy_params_of "parallel_reduce" (.vpolicy (.MDRangePolicy bs es)) =
          bs.length + 1))
  ∧ (∀ (n s : String) (b e : Int) (nm : Option String) (vw : Option PyVal)
        (iv : PyVal) (args : List PyVal) (kw : List (String × PyVal)),
      get_annotations "parallel_for"
        { name := nm, policy := .vpolicy (.RangePolicy s b e),
          workunit := .vworkunit [⟨n, none⟩], view := vw, initial_value := iv }
        args kw
      = .ok (some { workunit := .vworkunit [⟨n, none⟩],
                    inferred_types := [(n, "int")], is_arg := [n] }))
  ∧ (∀ (n : String) (nm : Option String) (vw : Option PyVal) (iv : PyVal)
        (args : List PyVal) (kw : List (String × PyVal)),
      get_annotations "parallel_for"
        { name := nm, policy := .vpolicy .TeamThreadRange,
          workunit := .vworkunit [⟨n, none⟩], view := vw, initial_value := iv }
        args kw
      = .ok (some { workunit := .vworkunit [⟨n, none⟩],
                    inferred_types := [(n, "int")], is_arg := [n] }))
  ∧ (∀ (n : String) (nm : Option String) (vw : Option PyVal) (iv : PyVal)
        (args : List PyVal) (kw : List (String × PyVal)),
      get_annotations "parallel_for"
        { name := nm, policy := .vpolicy .TeamPolicy,
          workunit := .vworkunit [⟨n, none⟩], view := vw, initial_value := iv }
        args kw
      = .ok (some { workunit := .vworkunit [⟨n, none⟩],
                    inferred_types := [(n, "pk.TeamMember")], is_arg := [n] }))
  ∧ (∀ (n1 n2 n3 : String), n1 ≠ n2 → n1 ≠ n3 → n2 ≠ n3 →
      ∀ (b1 b2 b3 e1 e2 e3 : Int) (nm : Option String) (vw : Option PyVal)
        (iv : PyVal) (args : List PyVal) (kw : List (String × PyVal)),
      get_annotations "parallel_for"
        { name := nm, policy := .vpolicy (.MDRangePolicy [b1, b2, b3] [e1, e2, e3]),
          workunit := .vworkunit [⟨n1, none⟩, ⟨n2, none⟩, ⟨n3, none⟩], view := vw,
          initial_value := iv } args kw
      = .ok (some { workunit := .vworkunit [⟨n1, none⟩, ⟨n2, none⟩, ⟨n3, none⟩],
                    inferred_types := [(n1, "int"), (n2, "int"), (n3, "int")],
                    is_arg := [n1, n2, n3] })) := by
  refine ⟨?_, ?_, fun n s b e nm vw iv args kw => rfl,
    fun n nm vw iv args kw => rfl, fun n nm vw iv args kw => rfl, ?_⟩
  · intro pt hpt
    refine ⟨fun s b e => ?_, ?_, ?_, fun bs es => ?_⟩ <;>
      simp [policy_params_of, policy_params_base, hpt]
  · refine ⟨fun s b e => ?_, ?_, ?_, fun bs es => ?_⟩ <;>
      simp [policy_params_of, policy_params_base]
  · intro n1 n2 n3 h12 h13 h23 b1 b2 b3 e1 e2 e3 nm vw iv args kw
    simp [get_annotations, signature_params, policy_params_of, policy_params_base,
      policy_loop, infer_policy_param, record_inference, dict_set, set_add,
      mdrange_total_dims, PyVal.isinstance_RangePolicy, PyVal.isinstance_TeamThreadRange,
      PyVal.isinstance_TeamPolicy, PyVal.isinstance_MDRangePolicy,
      List.range_succ, h12.symm, h13.symm, h23.symm, h12, h13, h23]

/-- Witness for C4: concrete instances of the hypothesis-bearing clauses,
obtained by applying `get_annotations_c4`. -/
theorem get_annotations_c4_witness :
    (policy_params_of "parallel_for" (.vpolicy .TeamThreadRange) = 1)
    ∧ get_annotations "parallel_for"
        { name := none, policy := .vpolicy (.MDRangePolicy [0, 0, 0] [4, 4, 4]),
          workunit := .vworkunit [⟨"i", none⟩, ⟨"j", none⟩, ⟨"k", none⟩], view := none,
          initial_value := .vint 0 } [] []
      = .ok (some { workunit := .vworkunit [⟨"i", none⟩, ⟨"j", none⟩, ⟨"k", none⟩],
                    inferred_types := [("i", "int"), ("j", "int"), ("k", "int")],
                    is_arg := ["i", "j", "k"] }) :=
  ⟨(get_annotations_c4.1 "parallel_for" (by decide)).2.1,
   get_annotations_c4.2.2.2.2.2 "i" "j" "k" (by decide) (by decide) (by decide)
     0 0 0 4 4 4 none none (.vint 0) [] []⟩

lemma range'_split (m : Nat) : ∀ s n : Nat, m ≤ n →
    List.range' s n = List.range' s m ++ List.range' (s + m) (n - m) := by
  induction m with
  | zero =>
    intro s n h
    simp
  | succ k ih =>
    intro s n h
    cases n with
    | zero => omega
    | succ n1 =>
      have hk : k ≤ n1 := by omega
      have e1 : s + (k + 1) = s + 1 + k := by omega
      have e2 : n1 + 1 - (k + 1) = n1 - k := by omega
      rw [List.range'_succ, List.range'_succ, List.cons_append, e1, e2,
        ← ih (s + 1) n1 hk]

lemma infer_acc_step (pol : PyVal) (pp i : Nat) (param : Param)
    (acc acc1 : UpdatedTypes) (hi : i = pp - 1) (hann : param.annot = none)
    (h : infer_policy_param "parallel_reduce" pol pp i param acc = .ok acc1) :
    alist_lookup param.name acc1.inferred_types = some "Acc:float"
      ∧ param.name ∈ acc1.is_arg := by
  simp only [infer_policy_param, hann] at h
  split at h
  · exact absurd h (by simp)
  · rename_i acc0 heq
    simp only [Except.ok.injEq] at h
    subst h
    rw [if_pos ⟨hi, trivial⟩]
    exact ⟨record_lookup_self acc0 param.name "Acc:float",
      record_mem_self acc0 param.name "Acc:float"⟩

/-- C7: a dispatch whose policy is none of the four supported kinds and
whose policy-slot parameter lacks an annotation makes `get_annotations`
raise the unsupported-policy `ValueError`, aborting the call. -/
theorem get_annotations_c7 (pt : String) (ha : HandledArgs) (args : List PyVal)
    (kwargs : List (String × PyVal)) (pl : List Param) (i : Nat) (p : Param)
    (hsig : signature_params ha.workunit = .ok pl)
    (hsup : supported_policy ha.policy = false)
    (hi : i < policy_params_of pt ha.policy)
    (hp : pl.get? i = some p)
    (hann : p.annot = none) :
    get_annotations pt ha args kwargs =
      .error (.valueError "Automatic annotations not supported for this policy") := by
  have herr : policy_loop pt ha.policy (policy_params_of pt ha.policy) pl
      (List.range (policy_params_of pt ha.policy))
      { workunit := ha.workunit, inferred_types := [], is_arg := [] } =
      .error (.valueError "Automatic annotations not supported for this policy") := by
    rw [List.range_eq_range']
    exact policy_loop_unsupported pt ha.policy (policy_params_of pt ha.policy) pl hsup
      (policy_params_of pt ha.policy) 0 _ ⟨i, Nat.zero_le i, by omega, p, hp, hann⟩
  unfold get_annotations
  rw [hsig]
  simp only
  rw [herr]

/-- Witness for C7: a custom policy with an unannotated policy-slot
parameter aborts with the unsupported-policy error. -/
theorem get_annotations_c7_witness :
    get_annotations "parallel_for"
      { name := none, policy := .vother "CustomPolicy",
        workunit := .vworkunit [⟨"i", none⟩], view := none, initial_value := .vint 0 }
      [] [] =
      .error (.valueError "Automatic annotations not supported for this policy") :=
  get_annotations_c7 "parallel_for" _ [] [] [⟨"i", none⟩] 0 ⟨"i", none⟩ rfl rfl
    (by decide) rfl rfl

/-- C5: when the workunit has parameters beyond the policy slots,
`get_annotations` appends keyword values to the raw positional list,
computes `value_idx` as 3 if a call-site name was supplied and 2
otherwise, and fails with the assertion error (not a recoverable error
kind) whenever the count of non-policy parameters differs from the count
of raw arguments beyond `value_idx`. -/
theorem get_annotations_c5 (pt : String) (ha : HandledArgs) (args : List PyVal)
    (kwargs : List (String × PyVal)) (pl : List Param) (acc : UpdatedTypes)
    (hsig : signature_params ha.workunit = .ok pl)
    (hloop : policy_loop pt ha.policy (policy_params_of pt ha.policy) pl
        (List.range (policy_params_of pt ha.policy))
        { workunit := ha.workunit, inferred_types := [], is_arg := [] } = .ok acc)
    (hlen : pl.length ≠ policy_params_of pt ha.policy)
    (hmis : (pl.length : Int) - (policy_params_of pt ha.policy : Int)
        ≠ ((queue_kwargs pl (policy_params_of pt ha.policy) kwargs args).length : Int)
          - ((if ha.name ≠ none then (3 : Nat) else 2 : Nat) : Int)) :
    get_annotations pt ha args kwargs =
      .error (.assertionError "Unannotated arguments mismatch") := by
  unfold get_annotations
  rw [hsig]
  simp only
  rw [hloop]
  simp only
  rw [if_neg hlen, if_neg hmis]

/-- Witness for C5: a workunit with one trailing parameter but no trailing
raw argument fails the argument-count assertion. -/
theorem get_annotations_c5_witness :
    get_annotations "parallel_for"
      { name := none, policy := .vpolicy (.RangePolicy "s" 0 10),
        workunit := .vworkunit [⟨"i", none⟩, ⟨"v", none⟩], view := none,
        initial_value := .vint 0 }
      [.vint 0, .vint 0] [] =
      .error (.assertionError "Unannotated arguments mismatch") :=
  get_annotations_c5 "parallel_for" _ [.vint 0, .vint 0] []
    [⟨"i", none⟩, ⟨"v", none⟩]
    { workunit := .vworkunit [⟨"i", none⟩, ⟨"v", none⟩],
      inferred_types := [("i", "int")], is_arg := ["i"] }
    rfl rfl (by decide) (by decide)

lemma except_bind_ok {ε α β : Type} {e1 : Except ε α} {f : α → Except ε β} {b : β}
    (h : e1.bind f = .ok b) : ∃ a, e1 = .ok a ∧ f a = .ok b := by
  cases e1 with
  | error e => exact absurd h (by simp [Except.bind])
  | ok a => exact ⟨a, rfl, h⟩

lemma policy_loop_append_bind (pt : String) (pol : PyVal) (pp : Nat) (pl : List Param)
    (l1 l2 : List Nat) (acc : UpdatedTypes) :
    policy_loop pt pol pp pl (l1 ++ l2) acc =
      (policy_loop pt pol pp pl l1 acc).bind
        (fun acc1 => policy_loop pt pol pp pl l2 acc1) := by
  rw [policy_loop_append]
  cases policy_loop pt pol pp pl l1 acc <;> rfl

lemma value_loop_append_bind (vi pp : Nat) (al : List PyVal) (pl : List Param)
    (l1 l2 : List Nat) (acc : UpdatedTypes) :
    value_loop vi pp al pl (l1 ++ l2) acc =
      (value_loop vi pp al pl l1 acc).bind
        (fun acc1 => value_loop vi pp al pl l2 acc1) := by
  rw [value_loop_append]
  cases value_loop vi pp al pl l1 acc <;> rfl

lemma policy_loop_singleton (pt : String) (pol : PyVal) (pp : Nat) (pl : List Param)
    (i : Nat) (acc : UpdatedTypes) (param : Param) (hg : pl.get? i = some param) :
    policy_loop pt pol pp pl [i] acc = infer_policy_param pt pol pp i param acc := by
  simp only [policy_loop, hg]
  cases infer_policy_param pt pol pp i param acc <;> rfl

lemma value_loop_cons_unann (vi pp : Nat) (al : List PyVal) (pl : List Param)
    (i : Nat) (rest : List Nat) (acc : UpdatedTypes) (param : Param) (value : PyVal)
    (hg : pl.get? i = some param) (hann : param.annot = none)
    (hv : al.get? (vi + i - pp) = some value) :
    value_loop vi pp al pl (i :: rest) acc =
      value_loop vi pp al pl rest
        (record_inference acc param.name (infer_value_type value)) := by
  simp only [value_loop, hg, hann, hv]

/-- C1: for a `parallel_reduce` dispatch whose last policy-slot workunit
parameter (the accumulator slot, at index `policy_params - 1`) lacks an
annotation, every normal return of `get_annotations` assigns that
parameter the inferred type "Acc:float" and classifies it as a policy
argument, regardless of which policy-derived type would otherwise apply. -/
theorem get_annotations_c1 (ha : HandledArgs) (args : List PyVal)
    (kwargs : List (String × PyVal)) (pl : List Param) (p : Param)
    (r : Option UpdatedTypes)
    (hsig : signature_params ha.workunit = .ok pl)
    (hnd : (pl.map Param.name).Nodup)
    (hp : pl.get? (policy_params_of "parallel_reduce" ha.policy - 1) = some p)
    (hann : p.annot = none)
    (h : get_annotations "parallel_reduce" ha args kwargs = .ok r) :
    ∃ u, r = some u ∧ alist_lookup p.name u.inferred_types = some "Acc:float"
      ∧ p.name ∈ u.is_arg := by
  obtain ⟨pl2, hsig2, u1, hloop, hcase⟩ := get_annotations_cases _ _ _ _ _ h
  rw [hsig] at hsig2
  injection hsig2 with he
  subst he
  have hppm : policy_params_of "parallel_reduce" ha.policy =
      policy_params_base ha.policy + 1 := by
    simp [policy_params_of]
  have hp0 := hp
  rw [hppm, Nat.add_sub_cancel] at hp0
  rw [hppm, List.range_succ, policy_loop_append_bind] at hloop
  obtain ⟨accm, hmid, hstep⟩ := except_bind_ok hloop
  rw [policy_loop_singleton "parallel_reduce" ha.policy
    (policy_params_base ha.policy + 1) pl (policy_params_base ha.policy) accm p hp0]
    at hstep
  have hacc := infer_acc_step ha.policy (policy_params_base ha.policy + 1)
    (policy_params_base ha.policy) p accm u1 (by omega) hann hstep
  rcases hcase with ⟨hlen, hsub⟩ | ⟨hlen, hassert, u2, hv, hsub⟩
  · rcases hsub with ⟨hz, hr⟩ | ⟨hz, hr⟩
    · exact absurd hz (alist_lookup_length_ne_zero hacc.1)
    · exact ⟨u1, hr, hacc.1, hacc.2⟩
  · have hx : ∀ j ∈ List.range' (policy_params_of "parallel_reduce" ha.policy)
        (pl.length - policy_params_of "parallel_reduce" ha.policy),
        ∀ q : Param, pl.get? j = some q → q.name ≠ p.name := by
      intro j hj q hq hname
      rw [List.mem_range'_1] at hj
      have hij : j = policy_params_of "parallel_reduce" ha.policy - 1 :=
        param_names_inj hnd hq hp hname
      omega
    have hfr := value_loop_frame _ _ _ _ _ _ _ _ hv hx
    rcases hsub with ⟨hz, hr⟩ | ⟨hz, hr⟩
    · exact absurd hz (alist_lookup_length_ne_zero (hfr.1.trans hacc.1))
    · exact ⟨u2, hr, hfr.1.trans hacc.1, hfr.2.mpr hacc.2⟩

/-- Witness for C1: a reduce dispatch over a range policy with an
unannotated index and accumulator parameter, via `get_annotations_c1`. -/
theorem get_annotations_c1_witness :
    ∃ u, (some (UpdatedTypes.mk (PyVal.vworkunit [⟨"i", none⟩, ⟨"acc", none⟩])
        [("i", "int"), ("acc", "Acc:float")] ["i", "acc"]) : Option UpdatedTypes)
        = some u
      ∧ alist_lookup "acc" u.inferred_types = some "Acc:float"
      ∧ "acc" ∈ u.is_arg :=
  get_annotations_c1
    { name := none, policy := .vpolicy (.RangePolicy "s" 0 10),
      workunit := .vworkunit [⟨"i", none⟩, ⟨"acc", none⟩], view := none,
      initial_value := .vint 0 } [] []
    [⟨"i", none⟩, ⟨"acc", none⟩] ⟨"acc", none⟩ _ rfl (by decide) rfl rfl rfl

/-- C6: a non-policy workunit parameter lacking an annotation is assigned
the descriptor of the raw value at position `value_idx` plus the
parameter's offset past the policy slots (keyword values having been
appended): "View{rank}D:{dtype}" for a view, built from the shape length
and element dtype name, otherwise the value's runtime type name; in
particular a 2-dimensional float64 view yields "View2D:float64". -/
theorem get_annotations_c6 (pt : String) (ha : HandledArgs) (args : List PyVal)
    (kwargs : List (String × PyVal)) (pl : List Param) (i : Nat) (p : Param)
    (v : PyVal) (r : Option UpdatedTypes)
    (hsig : signature_params ha.workunit = .ok pl)
    (hnd : (pl.map Param.name).Nodup)
    (hip : policy_params_of pt ha.policy ≤ i)
    (hp : pl.get? i = some p)
    (hann : p.annot = none)
    (hv : (queue_kwargs pl (policy_params_of pt ha.policy) kwargs args).get?
        ((if ha.name ≠ none then (3 : Nat) else 2) + i - policy_params_of pt ha.policy)
        = some v)
    (h : get_annotations pt ha args kwargs = .ok r) :
    (∃ u, r = some u ∧ alist_lookup p.name u.inferred_types =
        some (infer_value_type v) ∧ p.name ∈ u.is_arg)
    ∧ (∀ vv : ViewVal, infer_value_type (.vview vv) =
        "View" ++ toString vv.shape.length ++ "D:" ++ vv.dtype_name)
    ∧ (∀ sh : List Nat, sh.length = 2 →
        infer_value_type (.vview ⟨sh, "float64"⟩) = "View2D:float64") := by
  refine ⟨?_, fun vv => rfl, fun sh hsh => by
    simp only [infer_value_type, hsh]
    rfl⟩
  obtain ⟨pl2, hsig2, u1, hloop, hcase⟩ := get_annotations_cases _ _ _ _ _ h
  rw [hsig] at hsig2
  injection hsig2 with he
  subst he
  have hil : i < pl.length := by
    obtain ⟨hl, -⟩ := List.get?_eq_some.mp hp
    exact hl
  rcases hcase with ⟨hlen, -⟩ | ⟨hlen, hassert, u2, hv2, hsub⟩
  · omega
  · have hsplit : List.range' (policy_params_of pt ha.policy)
        (pl.length - policy_params_of pt ha.policy) =
        List.range' (policy_params_of pt ha.policy)
            (i - policy_params_of pt ha.policy)
          ++ i :: List.range' (i + 1) (pl.length - i - 1) := by
      rw [range'_split (i - policy_params_of pt ha.policy) _ _ (by omega)]
      congr 1
      have e1 : policy_params_of pt ha.policy +
          (i - policy_params_of pt ha.policy) = i := by omega
      have e2 : pl.length - policy_params_of pt ha.policy -
          (i - policy_params_of pt ha.policy) = (pl.length - i - 1) + 1 := by omega
      rw [e1, e2, List.range'_succ]
    rw [hsplit, value_loop_append_bind] at hv2
    obtain ⟨accm, hmid, hstep⟩ := except_bind_ok hv2
    rw [value_loop_cons_unann _ _ _ _ _ _ _ _ _ hp hann hv] at hstep
    have hx : ∀ j ∈ List.range' (i + 1) (pl.length - i - 1),
        ∀ q : Param, pl.get? j = some q → q.name ≠ p.name := by
      intro j hj q hq hname
      rw [List.mem_range'_1] at hj
      have hij : j = i := param_names_inj hnd hq hp hname
      omega
    have hfr := value_loop_frame _ _ _ _ _ _ _ _ hstep hx
    have hlook : alist_lookup p.name u2.inferred_types = some (infer_value_type v) :=
      hfr.1.trans (record_lookup_self accm p.name (infer_value_type v))
    have hmem : p.name ∈ u2.is_arg :=
      hfr.2.mpr (record_mem_self accm p.name (infer_value_type v))
    rcases hsub with ⟨hz, hr⟩ | ⟨hz, hr⟩
    · exact absurd hz (alist_lookup_length_ne_zero hlook)
    · exact ⟨u2, hr, hlook, hmem⟩

/-- Witness for C6: a trailing 2-dimensional float64 view argument
receives descriptor "View2D:float64", via `get_annotations_c6`. -/
theorem get_annotations_c6_witness :
    ∃ u, (some (UpdatedTypes.mk
        (PyVal.vworkunit [⟨"i", some "int"⟩, ⟨"v", none⟩])
        [("v", "View2D:float64")] ["v"]) : Option UpdatedTypes) = some u
      ∧ alist_lookup "v" u.inferred_types =
          some (infer_value_type (.vview ⟨[10, 20], "float64"⟩))
      ∧ "v" ∈ u.is_arg :=
  (get_annotations_c6 "parallel_for"
    { name := none, policy := .vpolicy (.RangePolicy "s" 0 10),
      workunit := .vworkunit [⟨"i", some "int"⟩, ⟨"v", none⟩], view := none,
      initial_value := .vint 0 }
    [.vpolicy (.RangePolicy "s" 0 10), .vworkunit [], .vview ⟨[10, 20], "float64"⟩] []
    [⟨"i", some "int"⟩, ⟨"v", none⟩] 1 ⟨"v", none⟩ (.vview ⟨[10, 20], "float64"⟩) _
    rfl (by decide) (by decide) rfl rfl rfl rfl).1

/-- C8: a normal return of `get_annotations` is absent exactly when no
annotation was inferred: a present result always carries a nonempty
inferred-type map, and when every workunit parameter already carries an
explicit annotation the result is absent. -/
theorem get_annotations_c8 :
    (∀ (pt : String) (ha : HandledArgs) (args : List PyVal)
        (kwargs : List (String × PyVal)) (u : UpdatedTypes),
      get_annotations pt ha args kwargs = .ok (some u) → u.inferred_types ≠ [])
  ∧ (∀ (pt : String) (ha : HandledArgs) (args : List PyVal)
        (kwargs : List (String × PyVal)) (pl : List Param) (r : Option UpdatedTypes),
      signature_params ha.workunit = .ok pl →
      (∀ p ∈ pl, p.annot ≠ none) →
      get_annotations pt ha args kwargs = .ok r → r = none) := by
  constructor
  · intro pt ha args kwargs u h
    obtain ⟨pl, hsig, u1, hloop, hcase⟩ := get_annotations_cases _ _ _ _ _ h
    rcases hcase with ⟨-, ⟨-, hr⟩ | ⟨hz, hr⟩⟩ | ⟨-, -, u2, -, ⟨-, hr⟩ | ⟨hz, hr⟩⟩
    · exact absurd hr (by simp)
    · injection hr with he
      subst he
      exact fun hnil => hz (by rw [hnil]; rfl)
    · exact absurd hr (by simp)
    · injection hr with he
      subst he
      exact fun hnil => hz (by rw [hnil]; rfl)
  · intro pt ha args kwargs pl r hsig hann h
    obtain ⟨pl2, hsig2, u1, hloop, hcase⟩ := get_annotations_cases _ _ _ _ _ h
    rw [hsig] at hsig2
    injection hsig2 with he
    subst he
    have hu1 : u1 = { workunit := ha.workunit, inferred_types := [], is_arg := [] } :=
      policy_loop_skip_all _ _ _ _ _ _ _ hloop
        (fun j hj q hq => hann q (List.get?_mem hq))
    subst hu1
    rcases hcase with ⟨-, ⟨-, hr⟩ | ⟨hz, -⟩⟩ | ⟨-, -, u2, hv, hsub⟩
    · exact hr
    · exact absurd rfl hz
    · have hu2 := value_loop_skip_all _ _ _ _ _ _ _ hv
        (fun j hj q hq => hann q (List.get?_mem hq))
      subst hu2
      rcases hsub with ⟨-, hr⟩ | ⟨hz, -⟩
      · exact hr
      · exact absurd rfl hz

/-- Witness for C8: a workunit whose only parameter is annotated gives an
absent result, via `get_annotations_c8`. -/
theorem get_annotations_c8_witness : (none : Option UpdatedTypes) = none :=
  get_annotations_c8.2 "parallel_for"
    { name := none, policy := .vpolicy (.RangePolicy "s" 0 10),
      workunit := .vworkunit [⟨"i", some "int"⟩], view := none,
      initial_value := .vint 0 } [] [] [⟨"i", some "int"⟩] none rfl
    (by decide) rfl

/-- C9: in every present result of `get_annotations`, the set of names
classified as arguments equals the key set of the inferred-type map. -/
theorem get_annotations_c9 (pt : String) (ha : HandledArgs) (args : List PyVal)
    (kwargs : List (String × PyVal)) (u : UpdatedTypes)
    (h : get_annotations pt ha args kwargs = .ok (some u)) :
    ∀ s, s ∈ u.is_arg ↔ s ∈ u.inferred_types.map Prod.fst := by
  obtain ⟨pl, hsig, u1, hloop, hcase⟩ := get_annotations_cases _ _ _ _ _ h
  have hinit : arg_keys_inv
      { workunit := ha.workunit, inferred_types := [], is_arg := [] } := by
    intro s
    simp
  have hu1 : arg_keys_inv u1 := policy_loop_inv _ _ _ _ _ _ _ hloop hinit
  rcases hcase with ⟨-, ⟨-, hr⟩ | ⟨-, hr⟩⟩ | ⟨-, -, u2, hv, ⟨-, hr⟩ | ⟨-, hr⟩⟩
  · exact absurd hr (by simp)
  · injection hr with he
    subst he
    exact hu1
  · exact absurd hr (by simp)
  · injection hr with he
    subst he
    exact value_loop_inv _ _ _ _ _ _ _ hv hu1

/-- Witness for C9: the name classified for a range-policy index parameter
is exactly the key of its inferred type, via `get_annotations_c9`. -/
theorem get_annotations_c9_witness :
    "i" ∈ (UpdatedTypes.mk (PyVal.vworkunit [⟨"i", none⟩]) [("i", "int")] ["i"]).is_arg
      ↔ "i" ∈ ((UpdatedTypes.mk (PyVal.vworkunit [⟨"i", none⟩]) [("i", "int")]
          ["i"]).inferred_types).map Prod.fst :=
  get_annotations_c9 "parallel_for"
    { name := none, policy := .vpolicy (.RangePolicy "s" 0 10),
      workunit := .vworkunit [⟨"i", none⟩], view := none, initial_value := .vint 0 }
    [] [] _ rfl "i"

/-- C10: a workunit parameter carrying an explicit annotation never
appears in a present result, neither in the inferred-type map nor in the
argument-classification set; in particular an annotated accumulator of a
`parallel_reduce` dispatch is not assigned "Acc:float". -/
theorem get_annotations_c10 (pt : String) (ha : HandledArgs) (args : List PyVal)
    (kwargs : List (String × PyVal)) (pl : List Param) (i : Nat) (p : Param)
    (u : UpdatedTypes)
    (hsig : signature_params ha.workunit = .ok pl)
    (hnd : (pl.map Param.name).Nodup)
    (hp : pl.get? i = some p)
    (hann : p.annot ≠ none)
    (h : get_annotations pt ha args kwargs = .ok (some u)) :
    p.name ∉ u.inferred_types.map Prod.fst ∧ p.name ∉ u.is_arg := by
  obtain ⟨pl2, hsig2, u1, hloop, hcase⟩ := get_annotations_cases _ _ _ _ _ h
  rw [hsig] at hsig2
  injection hsig2 with he
  subst he
  have hcontra : ∀ (j : Nat) (q : Param), pl.get? j = some q → q.annot = none →
      p.name = q.name → False := by
    intro j q hq hqa hname
    have hij : i = j := param_names_inj hnd hp hq hname
    rw [← hij, hp] at hq
    injection hq with hq2
    rw [← hq2] at hqa
    exact hann hqa
  have key : ¬ (p.name ∈ u.is_arg ∨ p.name ∈ u.inferred_types.map Prod.fst) := by
    intro htouch
    rcases hcase with ⟨-, ⟨-, hr⟩ | ⟨-, hr⟩⟩ | ⟨-, -, u2, hv, ⟨-, hr⟩ | ⟨-, hr⟩⟩
    · exact absurd hr (by simp)
    · injection hr with he2
      subst he2
      rcases policy_loop_names _ _ _ _ _ _ _ _ hloop htouch with
        hbase | ⟨j, -, q, hq, hqa, hxe⟩
      · simp at hbase
      · exact hcontra j q hq hqa hxe
    · exact absurd hr (by simp)
    · injection hr with he2
      subst he2
      rcases value_loop_names _ _ _ _ _ _ _ _ hv htouch with
        h1 | ⟨j, -, q, hq, hqa, hxe⟩
      · rcases policy_loop_names _ _ _ _ _ _ _ _ hloop h1 with
          hbase | ⟨j, -, q, hq, hqa, hxe⟩
        · simp at hbase
        · exact hcontra j q hq hqa hxe
      · exact hcontra j q hq hqa hxe
  exact ⟨fun hm => key (Or.inr hm), fun hm => key (Or.inl hm)⟩

/-- Witness for C10: an annotated trailing parameter "x" appears in
neither result field, via `get_annotations_c10`. -/
theorem get_annotations_c10_witness :
    "x" ∉ ((UpdatedTypes.mk (PyVal.vworkunit [⟨"i", none⟩, ⟨"x", some "int"⟩])
        [("i", "int")] ["i"]).inferred_types).map Prod.fst
    ∧ "x" ∉ (UpdatedTypes.mk (PyVal.vworkunit [⟨"i", none⟩, ⟨"x", some "int"⟩])
        [("i", "int")] ["i"]).is_arg :=
  get_annotations_c10 "parallel_for"
    { name := none, policy := .vpolicy (.RangePolicy "s" 0 10),
      workunit := .vworkunit [⟨"i", none⟩, ⟨"x", some "int"⟩], view := none,
      initial_value := .vint 0 }
    [.vint 0, .vint 0, .vint 7] [] [⟨"i", none⟩, ⟨"x", some "int"⟩] 1
    ⟨"x", some "int"⟩ _ rfl (by decide) rfl (by simp) rfl
